import Mathlib

/-!
Shallow embedding of the query / comparison engine of `csv2table.js`
(`src/unnamed/part_000`): date parsing and formatting (`parseDateString`,
`formatDate`), the search-query lexer/parser/evaluator (`parseSearchQuery`,
`evaluateSearchAST`), and the sort comparator and filter pass of
`renderTable`.

Modelling conventions, used throughout:
* JavaScript strings are Lean `String`s (operations work on `String.data`,
  the underlying `List Char`); only the ASCII fragment of the Unicode
  behaviour of `\s`, `\w`, `toLowerCase` is modelled, which covers every
  string occurring in the theorems below.
* Timestamps are `Int` milliseconds; `NaN` timestamps are
  `none : Option Int` (a valid date's `getTime()` is always finite).
* `parseFloat` results and comparator values are `JSNum`: `NaN`,
  `±Infinity` — overflow of a decimal literal to an infinity at the
  IEEE-754 threshold is modelled — or a finite value kept as an exact
  rational.  Rounding and underflow of finite values are not modelled:
  the properties proved below cannot observe them (`finite - finite` is
  never `NaN` however it rounds, and a rounded difference is still
  negative, zero or positive).
* The host environment is modelled with timezone offset 0 (so local time
  and UTC coincide) and an English locale for short month/weekday names.
-/

namespace Csv2Table

/-! ## Character and string helpers (ASCII models of JS built-ins) -/

/-- ASCII fragment of the JS `\s` class (space, tab, LF, CR, VT, FF). -/
def isJsSpace (c : Char) : Bool :=
  c = ' ' || c = '\t' || c = '\n' || c = '\r' || c = '\x0b' || c = '\x0c'

/-- JS `\w` / word character used by the `\b` boundary (ASCII). -/
def isWordChar (c : Char) : Bool :=
  c.isAlpha || c.isDigit || c = '_'

/-- ASCII model of `String.prototype.toLowerCase` on a single character. -/
def jsCharLower (c : Char) : Char :=
  if 'A' ≤ c ∧ c ≤ 'Z' then Char.ofNat (c.toNat + 32) else c

/-- `toLowerCase` on a whole string. -/
def jsToLower (s : String) : String :=
  ⟨s.data.map jsCharLower⟩

/-- `String.prototype.trim` on the character list. -/
def jsTrimList (cs : List Char) : List Char :=
  ((cs.dropWhile isJsSpace).reverse.dropWhile isJsSpace).reverse

/-- `String.prototype.trim`. -/
def jsTrim (s : String) : String :=
  ⟨jsTrimList s.data⟩

/-- `p` is a prefix of `s` (Boolean, on character lists). -/
def listStarts : List Char → List Char → Bool
  | [], _ => true
  | _ :: _, [] => false
  | p :: ps, s :: ss => p = s && listStarts ps ss

/-- `p` occurs as a contiguous sublist of `s`. -/
def listHasSub : List Char → List Char → Bool
  | p, [] => listStarts p []
  | p, s :: ss => listStarts p (s :: ss) || listHasSub p ss

/-- `p` is a suffix of `s`. -/
def listEnds (p s : List Char) : Bool :=
  listStarts p.reverse s.reverse

/-- Decimal digits to a natural number (`parseInt(·, 10)` on an all-digit
string). -/
def decNat (cs : List Char) : Nat :=
  cs.foldl (fun n c => n * 10 + (c.toNat - 48)) 0

/-! ## Numeric coercion: `parseFloat` and the strip used before it -/

/-- A JS number as it occurs in the coercion and comparison paths here:
`NaN`, an infinity, or a finite value (exact rational). -/
inductive JSNum
  | nan
  | negInf
  | posInf
  | num (q : ℚ)
deriving DecidableEq

/-- `!isNaN(x)` together with `x !== ±Infinity`: `x` is a finite number. -/
def jsIsFinite : JSNum → Bool
  | JSNum.num _ => true
  | _ => false

/-- The comparator's `isNaN(n) ? -Infinity : n` coercion. -/
def nanToNegInf (x : JSNum) : JSNum :=
  if x = JSNum.nan then JSNum.negInf else x

/-- `cell.replace(/[^\d.-]/g, '')`: keep only digits, `.` and `-`. -/
def stripNonNum (s : String) : String :=
  ⟨s.data.filter (fun c => c.isDigit || c = '.' || c = '-')⟩

/-- The decimal magnitude `m * 10 ^ (e - f)` reaches the IEEE-754 double
overflow threshold `2^1024 - 2^970 = 2^970 * (2^54 - 1)`, the smallest
magnitude that rounds to an infinity under round-to-nearest-even — the
boundary at which JS `parseFloat` returns `±Infinity`.  Stated over
integers so that it evaluates without rational arithmetic. -/
def ieeeOverflows (m f : Nat) (e : Int) : Bool :=
  let n : Nat := 2 ^ 970 * (2 ^ 54 - 1)
  let d : Int := e - (f : Int)
  if 0 ≤ d then m * 10 ^ d.toNat ≥ n
  else m ≥ n * 10 ^ (-d).toNat

/-- The number value `(neg ? -1 : 1) * m * 10 ^ (e - f)` as a `JSNum`:
the appropriately-signed infinity past the IEEE overflow threshold, else
the exact finite value. -/
def jsFloatVal (neg : Bool) (m f : Nat) (e : Int) : JSNum :=
  if ieeeOverflows m f e then
    if neg then JSNum.negInf else JSNum.posInf
  else
    JSNum.num ((if neg then (-1 : ℚ) else 1) * ((m : ℚ) / ((10 : ℚ) ^ f)) * (10 : ℚ) ^ e)

/-- Model of JS `parseFloat`: longest numeric prefix after optional
whitespace and sign, with optional fraction and exponent; `JSNum.nan`
when no digits are consumed; `±Infinity` when the decimal value reaches
the IEEE overflow threshold (e.g. a 310-digit integer), else the exact
finite value.  (The `Infinity` literal is not modelled: every call site
here feeds it either a lower-cased query value or a stripped cell,
neither of which can spell `Infinity`.  Finite values are kept exact —
see the module header for why rounding is unobservable here.) -/
def jsParseFloat (s : String) : JSNum :=
  let cs := s.data.dropWhile isJsSpace
  let cs1 := if cs.head? = some '-' ∨ cs.head? = some '+' then cs.tail else cs
  let ip := cs1.takeWhile Char.isDigit
  let cs2 := cs1.dropWhile Char.isDigit
  let fp := if cs2.head? = some '.' then cs2.tail.takeWhile Char.isDigit else []
  let cs3 := if cs2.head? = some '.' then cs2.tail.dropWhile Char.isDigit else cs2
  if ip = [] ∧ fp = [] then JSNum.nan
  else
    let e : Int :=
      if cs3.head? = some 'e' ∨ cs3.head? = some 'E' then
        let r := cs3.tail
        if r.head? = some '-' then
          let ed := r.tail.takeWhile Char.isDigit
          if ed = [] then 0 else -(decNat ed : Int)
        else
          let r2 := if r.head? = some '+' then r.tail else r
          let ed := r2.takeWhile Char.isDigit
          if ed = [] then 0 else (decNat ed : Int)
      else 0
    jsFloatVal (decide (cs.head? = some '-')) (decNat (ip ++ fp)) fp.length e

/-! ## Calendar arithmetic (model of the host `Date`, timezone offset 0) -/

/-- Leap year predicate of the Gregorian calendar. -/
def isLeapYear (y : Int) : Bool :=
  (y % 4 = 0 ∧ y % 100 ≠ 0) ∨ y % 400 = 0

/-- Days in month `m` (1-based) of year `y`. -/
def daysInMonth (y m : Int) : Int :=
  if m = 2 then (if isLeapYear y then 29 else 28)
  else if m = 4 ∨ m = 6 ∨ m = 9 ∨ m = 11 then 30
  else 31

/-- Days since 1970-01-01 of the civil date `(y, m, d)` (`m` 1-based,
`d` may be out of range and offsets linearly). -/
def daysFromCivil (y m d : Int) : Int :=
  let y1 := if m ≤ 2 then y - 1 else y
  let era := Int.fdiv y1 400
  let yoe := y1 - era * 400
  let mp := if m > 2 then m - 3 else m + 9
  let doy := Int.fdiv (153 * mp + 2) 5 + d - 1
  let doe := yoe * 365 + Int.fdiv yoe 4 - Int.fdiv yoe 100 + doy
  era * 146097 + doe - 719468

/-- Inverse of `daysFromCivil`: day count to `(year, month, day)`
(month 1-based). -/
def civilFromDays (z0 : Int) : Int × Int × Int :=
  let z := z0 + 719468
  let era := Int.fdiv z 146097
  let doe := z - era * 146097
  let yoe := Int.fdiv (doe - Int.fdiv doe 1460 + Int.fdiv doe 36524 - Int.fdiv doe 146096) 365
  let y := yoe + era * 400
  let doy := doe - (365 * yoe + Int.fdiv yoe 4 - Int.fdiv yoe 100)
  let mp := Int.fdiv (5 * doy + 2) 153
  let d := doy - Int.fdiv (153 * mp + 2) 5 + 1
  let m := if mp < 10 then mp + 3 else mp - 9
  (if m ≤ 2 then y + 1 else y, m, d)

/-- `new Date(y, mo, d, h, mi, s).getTime()` with the model timezone
(offset 0).  `mo` is 0-based and rolls over; `d`, `h`, `mi`, `s` offset
linearly; years 0–99 map to 1900–1999 (the JS two-digit-year quirk). -/
def jsMakeTime (y mo d h mi s : Int) : Int :=
  let yAdj := if 0 ≤ y ∧ y ≤ 99 then y + 1900 else y
  let ym := yAdj * 12 + mo
  let yy := Int.fdiv ym 12
  let m := ym - yy * 12 + 1
  (daysFromCivil yy m 1 + (d - 1)) * 86400000 + h * 3600000 + mi * 60000 + s * 1000

/-- Day count of a timestamp. -/
def tsDays (t : Int) : Int := Int.fdiv t 86400000

/-- Milliseconds into the day of a timestamp. -/
def tsMsOfDay (t : Int) : Int := t - 86400000 * tsDays t

/-- `Date.prototype.getFullYear` (model timezone). -/
def getFullYear (t : Int) : Int := (civilFromDays (tsDays t)).1

/-- `getMonth` (0-based). -/
def getMonth (t : Int) : Int := (civilFromDays (tsDays t)).2.1 - 1

/-- `getDate` (day of month, 1-based). -/
def getDate (t : Int) : Int := (civilFromDays (tsDays t)).2.2

/-- `getHours`. -/
def getHours (t : Int) : Int := Int.fdiv (tsMsOfDay t) 3600000

/-- `getMinutes`. -/
def getMinutes (t : Int) : Int := Int.emod (Int.fdiv (tsMsOfDay t) 60000) 60

/-- `getSeconds`. -/
def getSeconds (t : Int) : Int := Int.emod (Int.fdiv (tsMsOfDay t) 1000) 60

/-- `getDay` (weekday, 0 = Sunday; 1970-01-01 was a Thursday). -/
def getDay (t : Int) : Int := Int.emod (tsDays t + 4) 7

/-! ## The generic calendar-date parser -/

/-- Modelled from the spec: the "generic calendar-date parser" — the host
`new Date(string)` / `Date.parse` built-in to which `parseDateString`
delegates when no format is given or when the compiled format pattern does
not apply.  That built-in lives outside this repository; it is modelled
here for the calendar-date shapes the development exercises:
`YYYY-MM-DD` and `YYYY/MM/DD` (midnight in the model timezone), with
out-of-range months/days rejected as the engines do.  Every other string
is `NaN` (`none`). -/
def genericDateParse (s : String) : Option Int :=
  match s.data with
  | [y1, y2, y3, y4, s1, m1, m2, s2, d1, d2] =>
    if (y1.isDigit && y2.isDigit && y3.isDigit && y4.isDigit &&
        m1.isDigit && m2.isDigit && d1.isDigit && d2.isDigit) &&
       ((s1 = '-' && s2 = '-') || (s1 = '/' && s2 = '/')) then
      let y : Int := decNat [y1, y2, y3, y4]
      let mo : Int := decNat [m1, m2]
      let d : Int := decNat [d1, d2]
      if 1 ≤ mo ∧ mo ≤ 12 ∧ 1 ≤ d ∧ d ≤ daysInMonth y mo then
        some (daysFromCivil y mo d * 86400000)
      else none
    else none
  | _ => none

/-! ## Format-driven date parsing: the compiled pattern

`parseDateString` escapes the format string, then substitutes the format
tokens with named capturing groups using `String.prototype.replace` with a
string pattern — which replaces only the FIRST occurrence, and scans the
result of the previous substitutions.  The pattern string is built exactly
as the source builds it; compiling it can fail (the JS `RegExp`
constructor throws on invalid group names), in which case the source falls
back to the generic parser — the same continuation as a non-matching
pattern, so both are modelled as `none` below. -/

/-- The characters escaped by `format.replace(/[.*+?^$\x7b\x7d()|[\]\\]/g, '\\$&')`
(also exactly the JS regex metacharacters). -/
def regexSpecials : List Char :=
  ['.', '*', '+', '?', '^', '$', '{', '}', '(', ')', '|', '[', ']', '\\']

/-- Escape step applied to the format string. -/
def escapeRegexChars (cs : List Char) : List Char :=
  cs.flatMap (fun c => if c ∈ regexSpecials then ['\\', c] else [c])

/-- `String.prototype.replace` with a string pattern: replace the first
occurrence of `pat` (the replacement strings used here contain no `$`
sequences, so they are inserted literally). -/
def listReplaceFirst (pat repl : List Char) : List Char → List Char
  | [] => if pat = [] then repl else []
  | c :: cs =>
    if listStarts pat (c :: cs) then repl ++ (c :: cs).drop pat.length
    else c :: listReplaceFirst pat repl cs

/-- The 15 token substitutions of `parseDateString`, in source order. -/
def tokenReplacements : List (List Char × List Char) :=
  [("YYYY".data, "(?<YYYY>\\d\x7b4\x7d)".data),
   ("YY".data, "(?<YY>\\d\x7b2\x7d)".data),
   ("Mmm".data, "(?<Mmm>[^\\d\\s\\/\\-.,]+)".data),
   ("MM".data, "(?<MM>\\d\x7b2\x7d)".data),
   ("M".data, "(?<M>\\d\x7b1,2\x7d)".data),
   ("DD".data, "(?<DD>\\d\x7b2\x7d)".data),
   ("D".data, "(?<D>\\d\x7b1,2\x7d)".data),
   ("HH".data, "(?<HH>\\d\x7b2\x7d)".data),
   ("H".data, "(?<H>\\d\x7b1,2\x7d)".data),
   ("mm".data, "(?<mm>\\d\x7b2\x7d)".data),
   ("m".data, "(?<m>\\d\x7b1,2\x7d)".data),
   ("ss".data, "(?<ss>\\d\x7b2\x7d)".data),
   ("s".data, "(?<s>\\d\x7b1,2\x7d)".data),
   ("Www".data, "(?<Www>[^\\d\\s\\/\\-.,]+)".data),
   ("Z".data, "(?<Z>Z|[+-]\\d\x7b2\x7d:?\\d\x7b2\x7d|[+-]\\d\x7b4\x7d)".data)]

/-- The pattern string `patternStr` built from a format string. -/
def buildPatternStr (fmt : String) : List Char :=
  tokenReplacements.foldl (fun s pr => listReplaceFirst pr.1 pr.2 s)
    (escapeRegexChars fmt.data)

/-- Group bodies that the substitution chain can emit. -/
inductive GKind
  | d4    -- \d{4}
  | d2    -- \d{2}
  | d12   -- \d{1,2}
  | nrun  -- [^\d\s\/\-.,]+  (month/weekday-name run)
  | zoff  -- Z|[+-]\d{2}:?\d{2}|[+-]\d{4}
deriving DecidableEq

/-- An item of a compiled pattern: a literal character or a named group. -/
inductive PatItem
  | lit (c : Char)
  | grp (name : String) (kind : GKind)
deriving DecidableEq

/-- Valid characters of a JS named-group identifier (ASCII fragment). -/
def isGroupNameChar (c : Char) : Bool :=
  c.isAlpha || c.isDigit || c = '_' || c = '$'

/-- Recognize one of the five group bodies followed by `)`, returning the
kind and the rest of the pattern. -/
def matchGroupBody (cs : List Char) : Option (GKind × List Char) :=
  let tryOne := fun (body : String) (k : GKind) =>
    let b := body.data ++ [')']
    if listStarts b cs then some (k, cs.drop b.length) else none
  match tryOne "\\d\x7b4\x7d" GKind.d4 with
  | some r => some r
  | none => match tryOne "\\d\x7b1,2\x7d" GKind.d12 with
    | some r => some r
    | none => match tryOne "\\d\x7b2\x7d" GKind.d2 with
      | some r => some r
      | none => match tryOne "[^\\d\\s\\/\\-.,]+" GKind.nrun with
        | some r => some r
        | none => tryOne "Z|[+-]\\d\x7b2\x7d:?\\d\x7b2\x7d|[+-]\\d\x7b4\x7d" GKind.zoff

/-- Parse (compile) a pattern string into items.  `none` models the
`RegExp` constructor throwing.  It covers exactly the pattern sublanguage
the substitution chain emits: escaped literals, plain non-metacharacter
literals, and the five named-group shapes; invalid group names (the
corrupted `(?<(?<…` splices) are rejected just as JS rejects them.  An
unescaped metacharacter or unknown group body is also rejected — on the
chain's output such shapes only arise alongside an invalid group name, so
the observable behaviour (fall back to the generic parser) agrees. -/
def parsePatternAux : Nat → List Char → Option (List PatItem)
  | 0, _ => none
  | _ + 1, [] => some []
  | f + 1, '\\' :: c :: rest =>
    if c ∈ regexSpecials then (parsePatternAux f rest).map (PatItem.lit c :: ·)
    else none
  | _ + 1, ['\\'] => none
  | f + 1, '(' :: '?' :: '<' :: rest =>
    let name := rest.takeWhile (· ≠ '>')
    if name ≠ [] ∧ name.all isGroupNameChar ∧ ¬ (name.headI).isDigit then
      match rest.drop name.length with
      | '>' :: rest2 =>
        match matchGroupBody rest2 with
        | some (k, rest3) => (parsePatternAux f rest3).map (PatItem.grp ⟨name⟩ k :: ·)
        | none => none
      | _ => none
    else none
  | f + 1, c :: rest =>
    if c ∈ regexSpecials then none
    else (parsePatternAux f rest).map (PatItem.lit c :: ·)

/-- Candidate matches of one group against a prefix of the input, in the
order the backtracking regex engine tries them (greedy, alternation
left-to-right): pairs of (captured text, remaining input). -/
def groupCandidates (k : GKind) (s : List Char) : List (List Char × List Char) :=
  match k with
  | GKind.d4 =>
    let p := s.take 4
    if p.length = 4 ∧ p.all Char.isDigit then [(p, s.drop 4)] else []
  | GKind.d2 =>
    let p := s.take 2
    if p.length = 2 ∧ p.all Char.isDigit then [(p, s.drop 2)] else []
  | GKind.d12 =>
    let p2 := s.take 2
    let p1 := s.take 1
    (if p2.length = 2 ∧ p2.all Char.isDigit then [(p2, s.drop 2)] else []) ++
    (if p1.length = 1 ∧ p1.all Char.isDigit then [(p1, s.drop 1)] else [])
  | GKind.nrun =>
    let ok := fun c => ¬ (c.isDigit || isJsSpace c || c = '/' || c = '-' || c = '.' || c = ',')
    let run := s.takeWhile ok
    (List.range run.length).map (fun j => (s.take (run.length - j), s.drop (run.length - j)))
  | GKind.zoff =>
    (match s with
     | 'Z' :: r => [(['Z'], r)]
     | _ => []) ++
    (match s with
     | c0 :: a :: b :: ':' :: c :: d :: r =>
       if (c0 = '+' ∨ c0 = '-') ∧ a.isDigit ∧ b.isDigit ∧ c.isDigit ∧ d.isDigit then
         [([c0, a, b, ':', c, d], r)]
       else []
     | _ => []) ++
    (match s with
     | c0 :: a :: b :: c :: d :: r =>
       if (c0 = '+' ∨ c0 = '-') ∧ a.isDigit ∧ b.isDigit ∧ c.isDigit ∧ d.isDigit then
         [([c0, a, b, c, d], r)]
       else []
     | _ => [])

/-- Backtracking matcher for a full (anchored `^…$`) match of the items
against the input; on success returns the named captures. -/
def matchItemsAux : Nat → List PatItem → List Char → Option (List (String × String))
  | 0, _, _ => none
  | _ + 1, [], [] => some []
  | _ + 1, [], _ :: _ => none
  | f + 1, PatItem.lit c :: items, s =>
    match s with
    | x :: xs => if x = c then matchItemsAux f items xs else none
    | [] => none
  | f + 1, PatItem.grp n k :: items, s =>
    (groupCandidates k s).firstM (fun tr =>
      (matchItemsAux f items tr.2).map (fun g => (n, (⟨tr.1⟩ : String)) :: g))

/-- `new RegExp('^' + patternStr + '$')` followed by `.match`: `none`
covers both a compile failure (exception) and a failed match, which the
source treats identically (fall through to the generic parser). -/
def formatRegexMatch (pat : List Char) (s : List Char) : Option (List (String × String)) :=
  match parsePatternAux (pat.length + 1) pat with
  | none => none
  | some items => matchItemsAux (2 * items.length + 2) items s

/-! ## From captured groups to a timestamp -/

/-- Look up a named group among the captures. -/
def groupLookup (g : List (String × String)) (n : String) : Option String :=
  (g.find? (fun p => p.1 = n)).map (·.2)

/-- The twelve month-abbreviation prefixes used to resolve `Mmm`. -/
def monthAbbrevs : List String :=
  ["jan", "feb", "mar", "apr", "may", "jun", "jul", "aug", "sep", "oct", "nov", "dec"]

/-- Resolve a `Mmm` capture to a 0-based month, `months.findIndex(m =>
mName.startsWith(m))`; unresolved leaves the month unchanged. -/
def resolveMonthName (s : String) (dflt : Int) : Int :=
  let mName := jsToLower s
  match monthAbbrevs.findIdx? (fun m => listStarts m.data mName.data) with
  | some i => (i : Int)
  | none => dflt

/-- ISO-8601 `Date.parse` of the string the `Z` branch constructs:
`yyyy-MM-ddThh:mm:ss±HH:MM` (or `Z`).  Valid iff every field is in range
(the engines reject e.g. month 13 or day 32); `h = 24` is accepted with
zero minutes/seconds.  On success the timestamp accounts for the offset. -/
def isoParse (y mo d h mi s offMin : Int) : Option Int :=
  if (0 ≤ y ∧ y ≤ 9999) ∧ (1 ≤ mo ∧ mo ≤ 12) ∧ (1 ≤ d ∧ d ≤ daysInMonth y mo) ∧
     ((0 ≤ h ∧ h ≤ 23) ∨ (h = 24 ∧ mi = 0 ∧ s = 0)) ∧
     (0 ≤ mi ∧ mi ≤ 59) ∧ (0 ≤ s ∧ s ≤ 59) then
    some (daysFromCivil y mo d * 86400000 + h * 3600000 + mi * 60000 + s * 1000
          - offMin * 60000)
  else none

/-- The `g.Z` branch: normalize the captured offset (`+0900` → `+09:00`),
build the ISO string and `Date.parse` it; `none` falls through to the
local construction. -/
def zBranch (year month day hours minutes seconds : Int) (z : String) : Option Int :=
  if z = "Z" ∨ z = "z" then isoParse year (month + 1) day hours minutes seconds 0
  else
    let zn := if z.data.length = 5 then z.data.take 3 ++ [':'] ++ z.data.drop 3 else z.data
    match zn with
    | [c0, a, b, ':', c, d] =>
      if (c0 = '+' ∨ c0 = '-') ∧ a.isDigit ∧ b.isDigit ∧ c.isDigit ∧ d.isDigit then
        let hh : Int := decNat [a, b]
        let mm : Int := decNat [c, d]
        if hh ≤ 23 ∧ mm ≤ 59 then
          let off := (if c0 = '-' then -1 else 1) * (hh * 60 + mm)
          isoParse year (month + 1) day hours minutes seconds off
        else none
      else none
    | _ => none

/-- Fields-to-timestamp step of `parseDateString` after a successful
pattern match (source lines 139–180). -/
def groupsToTimestamp (g : List (String × String)) : Int :=
  let year : Int :=
    match groupLookup g "YYYY" with
    | some s => decNat s.data
    | none =>
      match groupLookup g "YY" with
      | some s =>
        let y : Int := decNat s.data
        if y ≥ 70 then 1900 + y else 2000 + y
      | none => 1970
  let month : Int :=
    match groupLookup g "MM" with
    | some s => decNat s.data - 1
    | none =>
      match groupLookup g "M" with
      | some s => decNat s.data - 1
      | none =>
        match groupLookup g "Mmm" with
        | some s => resolveMonthName s 0
        | none => 0
  let day : Int :=
    match groupLookup g "DD" with
    | some s => decNat s.data
    | none =>
      match groupLookup g "D" with
      | some s => decNat s.data
      | none => 1
  let hours : Int :=
    match groupLookup g "HH" with
    | some s => decNat s.data
    | none =>
      match groupLookup g "H" with
      | some s => decNat s.data
      | none => 0
  let minutes : Int :=
    match groupLookup g "mm" with
    | some s => decNat s.data
    | none =>
      match groupLookup g "m" with
      | some s => decNat s.data
      | none => 0
  let seconds : Int :=
    match groupLookup g "ss" with
    | some s => decNat s.data
    | none =>
      match groupLookup g "s" with
      | some s => decNat s.data
      | none => 0
  match groupLookup g "Z" with
  | some z =>
    match zBranch year month day hours minutes seconds z with
    | some ts => ts
    | none => jsMakeTime year month day hours minutes seconds
  | none => jsMakeTime year month day hours minutes seconds

/-- `parseDateString(dateStr, format)`; `none` is `NaN`.  An absent or
empty (falsy) format delegates to the generic parser; otherwise the
compiled pattern is tried against the trimmed input, and on
compile-failure or no-match the generic parser is the fallback. -/
def parseDateString (dateStr : String) (format : Option String) : Option Int :=
  if dateStr = "" ∨ jsTrim dateStr = "-" ∨ jsTrim dateStr = "" then none
  else
    match format with
    | none => genericDateParse dateStr
    | some fmt =>
      if fmt = "" then genericDateParse dateStr
      else
        match formatRegexMatch (buildPatternStr fmt) (jsTrim dateStr).data with
        | some g => some (groupsToTimestamp g)
        | none => genericDateParse dateStr

/-! ## Date formatting (`formatDate`) -/

/-- English short month names (the model locale for `Intl` `Mmm`). -/
def monthShortNames : List String :=
  ["Jan", "Feb", "Mar", "Apr", "May", "Jun", "Jul", "Aug", "Sep", "Oct", "Nov", "Dec"]

/-- English short weekday names (the model locale for `Intl` `Www`). -/
def weekdayShortNames : List String :=
  ["Sun", "Mon", "Tue", "Wed", "Thu", "Fri", "Sat"]

/-- Decimal rendering of an integer (JS number-to-string for integers). -/
def intToDec (n : Int) : String :=
  toString n

/-- `String(n).padStart(2, '0')`. -/
def pad2 (n : Int) : String :=
  let s := intToDec n
  if s.data.length < 2 then ⟨'0' :: s.data⟩ else s

/-- `String(d.getFullYear()).slice(-2)`. -/
def lastTwo (s : String) : String :=
  ⟨s.data.drop (s.data.length - 2)⟩

/-- The replacement of one output-format token for timestamp `t`
(the `map` of `formatDate`; `Z` renders the model timezone `+00:00`). -/
def dateTokenValue (t : Int) (tok : String) : String :=
  if tok = "YYYY" then intToDec (getFullYear t)
  else if tok = "YY" then lastTwo (intToDec (getFullYear t))
  else if tok = "MM" then pad2 (getMonth t + 1)
  else if tok = "M" then intToDec (getMonth t + 1)
  else if tok = "DD" then pad2 (getDate t)
  else if tok = "D" then intToDec (getDate t)
  else if tok = "HH" then pad2 (getHours t)
  else if tok = "H" then intToDec (getHours t)
  else if tok = "mm" then pad2 (getMinutes t)
  else if tok = "m" then intToDec (getMinutes t)
  else if tok = "ss" then pad2 (getSeconds t)
  else if tok = "s" then intToDec (getSeconds t)
  else if tok = "Www" then weekdayShortNames.getD (getDay t).toNat ""
  else if tok = "Mmm" then monthShortNames.getD (getMonth t).toNat ""
  else if tok = "Z" then "+00:00"
  else ""

/-- The output tokens in the order of the alternation
`/YYYY|YY|Mmm|MM|M|DD|D|HH|H|mm|m|ss|s|Www|Z/g`. -/
def outTokens : List String :=
  ["YYYY", "YY", "Mmm", "MM", "M", "DD", "D", "HH", "H", "mm", "m", "ss", "s", "Www", "Z"]

/-- Global token expansion: at each position try the alternatives in
order; on a match substitute and continue past it, else copy the
character. -/
def expandOutAux (t : Int) : Nat → List Char → List Char
  | 0, _ => []
  | _ + 1, [] => []
  | f + 1, c :: cs =>
    match outTokens.find? (fun tok => listStarts tok.data (c :: cs)) with
    | some tok => (dateTokenValue t tok).data ++ expandOutAux t f ((c :: cs).drop tok.data.length)
    | none => c :: expandOutAux t f cs

/-- The output-format expansion step of `formatDate` (source lines
581–607) for timestamp `t`. -/
def renderDateFormat (outFmt : String) (t : Int) : String :=
  ⟨expandOutAux t (outFmt.data.length + 1) outFmt.data⟩

/-- `formatDate(valueStr, inputFormatStr, outputFormatStr)`: parse, and on
failure return the raw value; a missing output format also returns the
raw value.  (The locale argument is fixed to the model locale.) -/
def formatDate (valueStr : String) (inputFormat outputFormat : Option String) : String :=
  if valueStr = "" then ""
  else
    match parseDateString valueStr inputFormat with
    | none => valueStr
    | some t =>
      match outputFormat with
      | none => valueStr
      | some f => renderDateFormat f t

/-! ## Query lexer (`parseSearchQuery`, tokenizing loop) -/

/-- Lexer tokens. -/
inductive Token
  | lparen
  | rparen
  | andT
  | orT
  | term (column : Option String) (value : String)
  | ineq (column : Option String) (op : String) (value : String)
deriving DecidableEq

/-- A character allowed in a column qualifier: `[^:()<>=!\s]`. -/
def isColChar (c : Char) : Bool :=
  !(c = ':' || c = '(' || c = ')' || c = '<' || c = '>' || c = '=' || c = '!' || isJsSpace c)

/-- A character allowed in an unquoted value: not whitespace, `(` or `)`. -/
def isValChar (c : Char) : Bool :=
  !(isJsSpace c || c = '(' || c = ')')

/-- `\b` after a keyword: end of input or a non-word character. -/
def wordBoundary (cs : List Char) : Bool :=
  match cs with
  | [] => true
  | c :: _ => !isWordChar c

/-- `/^(AND\b|OR\b)/i`: a case-insensitive whole-word `AND` or `OR` at the
start of the input. -/
def lexKeyword (cs : List Char) : Option (Token × List Char) :=
  match cs with
  | a :: b :: c :: rest =>
    if (jsCharLower a = 'a' ∧ jsCharLower b = 'n' ∧ jsCharLower c = 'd') ∧
       wordBoundary rest = true then some (Token.andT, rest)
    else if (jsCharLower a = 'o' ∧ jsCharLower b = 'r') ∧
       wordBoundary (c :: rest) = true then some (Token.orT, c :: rest)
    else none
  | [a, b] =>
    if jsCharLower a = 'o' ∧ jsCharLower b = 'r' then some (Token.orT, []) else none
  | _ => none

/-- `/^([^:()<>=!\s]+):/`: a maximal run of column characters followed by
`:`; on a match the qualifier (original case) and the `:` are consumed. -/
def lexColumn (cs : List Char) : Option String × List Char :=
  let run := cs.takeWhile isColChar
  match cs.dropWhile isColChar with
  | ':' :: rest => if run ≠ [] then (some ⟨run⟩, rest) else (none, cs)
  | _ => (none, cs)

/-- `/^(>=|<=|>|<)/`, longest first. -/
def lexOp : List Char → Option String × List Char
  | '>' :: '=' :: rest => (some ">=", rest)
  | '<' :: '=' :: rest => (some "<=", rest)
  | '>' :: rest => (some ">", rest)
  | '<' :: rest => (some "<", rest)
  | cs => (none, cs)

/-- The value: quoted (consume to the closing quote, skipping it if
present) or a maximal run of value characters. -/
def lexValue (cs : List Char) : List Char × List Char :=
  match cs with
  | '"' :: rest =>
    let v := rest.takeWhile (· ≠ '"')
    match rest.dropWhile (· ≠ '"') with
    | '"' :: rest2 => (v, rest2)
    | rest2 => (v, rest2)
  | _ => (cs.takeWhile isValChar, cs.dropWhile isValChar)

/-- Build the emitted token: `INEQUALITY` when an operator was captured,
else `TERM`; the value is lower-cased at emission. -/
def mkTok (col : Option String) (op : Option String) (v : List Char) : Token :=
  match op with
  | some o => Token.ineq col o ⟨v.map jsCharLower⟩
  | none => Token.term col ⟨v.map jsCharLower⟩

/-- One column/operator/value attempt; the token is emitted only if a
value or a column was captured (`if (value || column)`). -/
def lexFragment (cs : List Char) : Option Token × List Char :=
  let p1 := lexColumn cs
  let p2 := lexOp p1.2
  let p3 := lexValue p2.2
  (if p3.1 ≠ [] ∨ p1.1 ≠ none then some (mkTok p1.1 p2.1 p3.1) else none, p3.2)

/-- One iteration of the tokenizing loop on a non-empty input: the
possibly-emitted token and the rest of the input. -/
def lexStep (c : Char) (cs : List Char) : Option Token × List Char :=
  if isJsSpace c then (none, cs)
  else if c = '(' then (some Token.lparen, cs)
  else if c = ')' then (some Token.rparen, cs)
  else
    match lexKeyword (c :: cs) with
    | some tr => (some tr.1, tr.2)
    | none => lexFragment (c :: cs)

/-- The tokenizing loop.  Every iteration consumes at least one character,
so fuel `length + 1` runs it to completion. -/
def lexAux : Nat → List Char → List Token
  | 0, _ => []
  | _ + 1, [] => []
  | f + 1, c :: cs =>
    let st := lexStep c cs
    match st.1 with
    | some t => t :: lexAux f st.2
    | none => lexAux f st.2

/-- Tokenize a query string. -/
def lexQuery (q : String) : List Token :=
  lexAux (q.data.length + 1) q.data

/-! ## Query parser (recursive descent over the token list) -/

/-- The boolean query AST. -/
inductive Ast
  | orN (left right : Ast)
  | andN (left right : Ast)
  | term (column : Option String) (value : String)
  | ineq (column : Option String) (op : String) (value : String)
deriving DecidableEq

/-- The `node`/`right` combination of `parseAnd`/`parseOr`: keep whichever
side is non-null, combining when both are. -/
def combineNodes (mk : Ast → Ast → Ast) (node right : Option Ast) : Option Ast :=
  match node, right with
  | some n, some r => some (mk n r)
  | none, some r => some r
  | _, none => node

/- Mutually recursive descent with fuel (each level of the source's
recursion consumes at least one token, so the fuel supplied by
`parseTokens` suffices).  Each function returns the parsed node and the
unconsumed tokens (the shared `pos` cursor). -/
mutual

def parseTermF : Nat → List Token → Option Ast × List Token
  | 0, ts => (none, ts)
  | _ + 1, [] => (none, [])
  | f + 1, Token.lparen :: rest =>
    let nr := parseOrF f rest
    match nr.2 with
    | Token.rparen :: rest2 => (nr.1, rest2)
    | _ => nr
  | _ + 1, Token.term c v :: rest => (some (Ast.term c v), rest)
  | _ + 1, Token.ineq c o v :: rest => (some (Ast.ineq c o v), rest)
  | _ + 1, _ :: rest => (none, rest)

def parseAndF : Nat → List Token → Option Ast × List Token
  | 0, ts => (none, ts)
  | f + 1, ts =>
    let nr := parseTermF f ts
    parseAndLoopF f nr.1 nr.2

def parseAndLoopF : Nat → Option Ast → List Token → Option Ast × List Token
  | 0, node, ts => (node, ts)
  | f + 1, node, ts =>
    match ts with
    | Token.andT :: rest =>
      let nr := parseTermF f rest
      parseAndLoopF f (combineNodes Ast.andN node nr.1) nr.2
    | Token.term _ _ :: _ =>
      let nr := parseTermF f ts
      parseAndLoopF f (combineNodes Ast.andN node nr.1) nr.2
    | Token.ineq _ _ _ :: _ =>
      let nr := parseTermF f ts
      parseAndLoopF f (combineNodes Ast.andN node nr.1) nr.2
    | Token.lparen :: _ =>
      let nr := parseTermF f ts
      parseAndLoopF f (combineNodes Ast.andN node nr.1) nr.2
    | _ => (node, ts)

def parseOrF : Nat → List Token → Option Ast × List Token
  | 0, ts => (none, ts)
  | f + 1, ts =>
    let nr := parseAndF f ts
    parseOrLoopF f nr.1 nr.2

def parseOrLoopF : Nat → Option Ast → List Token → Option Ast × List Token
  | 0, node, ts => (node, ts)
  | f + 1, node, ts =>
    match ts with
    | Token.orT :: rest =>
      let nr := parseAndF f rest
      parseOrLoopF f (combineNodes Ast.orN node nr.1) nr.2
    | _ => (node, ts)

end

/-- Parse a token list (`parseOr()` at the top).  The fuel bound covers
the recursion depth, which consumes at least one token per `parseTerm`. -/
def parseTokens (ts : List Token) : Option Ast :=
  (parseOrF (4 * ts.length + 4) ts).1

/-- `parseSearchQuery(query)`: empty or all-whitespace queries yield a
null AST. -/
def parseSearchQuery (q : String) : Option Ast :=
  if q = "" ∨ jsTrim q = "" then none
  else parseTokens (lexQuery q)

/-! ## Evaluation context: headers, column configuration, visible set -/

/-- A per-column configuration record; absent JS properties are `none`.
The JS `toString` property is named `toStr` here (`toString` clashes with
the Lean type-class method). -/
structure ColConfig where
  type : Option String := none
  format : Option String := none
  toStr : Option String := none
  unit : Option String := none
  locale : Option String := none
deriving DecidableEq

/-- Evaluation context: `this.headers`, `this.columns`,
`this.visibleColumns` (the set as a list of positions). -/
structure Ctx where
  headers : List String := []
  columns : List ColConfig := []
  visible : List Nat := []
deriving DecidableEq

/-- `this.columns[i] || \x7b\x7d`. -/
def colConfigAt (columns : List ColConfig) (i : Nat) : ColConfig :=
  columns.getD i {}

/-- `colConfig.type || 'string'`. -/
def typeAt (columns : List ColConfig) (i : Nat) : String :=
  (colConfigAt columns i).type.getD "string"

/-- `headers.findIndex(h => h.toLowerCase() === c.toLowerCase())`,
as an `Option` index. -/
def findHeaderIdxAux (c : String) : Nat → List String → Option Nat
  | _, [] => none
  | i, h :: hs =>
    if jsToLower h = jsToLower c then some i else findHeaderIdxAux c (i + 1) hs

/-- Resolve a column qualifier against the headers. -/
def findHeaderIdx (headers : List String) (c : String) : Option Nat :=
  findHeaderIdxAux c 0 headers

/-- `row.some((cell, i) => f i cell)`. -/
def scanCells (f : Nat → String → Bool) : Nat → List String → Bool
  | _, [] => false
  | i, c :: cs => f i c || scanCells f (i + 1) cs

/-- The Evaluator's display transform of a cell before text matching:
date-typed columns with an output format are formatted for display. -/
def displayCell (ctx : Ctx) (i : Nat) (cell : String) : String :=
  let cfg := colConfigAt ctx.columns i
  if cfg.type = some "date" ∧ cfg.toStr.isSome then
    formatDate cell cfg.format cfg.toStr
  else cell

/-! ## TERM matching

The source extracts a leading `^` and a trailing `$` from the search
value, escapes every remaining regex metacharacter, and tests the
resulting pattern case-insensitively.  The escaped literal matches itself
and nothing else, so the compiled regex test is exactly a prefix / suffix
/ equality / substring check of the literal, modelled directly.  (The
abandoned first `regexStr` computation at source lines 385–393 has no
observable effect and is omitted.) -/

/-- `new RegExp(finalRegexStr, 'i').test(cellVal)`. -/
def termTest (v : String) (cellVal : String) : Bool :=
  let vd := v.data
  let st := listStarts ['^'] vd
  let v1 := if st then vd.drop 1 else vd
  let en := listEnds ['$'] v1
  let v2 := if en then v1.take (v1.length - 1) else v1
  let p := v2.map jsCharLower
  let s := cellVal.data.map jsCharLower
  match st, en with
  | true, true => p = s
  | true, false => listStarts p s
  | false, true => listEnds p s
  | false, false => listHasSub p s

/-! ## INEQUALITY matching -/

/-- Apply the comparison operator to `(cellValue, queryValue)`; an
unrecognized operator yields `false`. -/
def applyOpQ (op : String) (cVal sVal : ℚ) : Bool :=
  if op = ">=" then cVal ≥ sVal
  else if op = "<=" then cVal ≤ sVal
  else if op = ">" then cVal > sVal
  else if op = "<" then cVal < sVal
  else false

/-- JS order comparison of two number values; `none` when either side is
`NaN` (every JS comparison with `NaN` is false). -/
def jsCmpVal : JSNum → JSNum → Option Ordering
  | JSNum.nan, _ => none
  | _, JSNum.nan => none
  | JSNum.negInf, JSNum.negInf => some Ordering.eq
  | JSNum.negInf, _ => some Ordering.lt
  | _, JSNum.negInf => some Ordering.gt
  | JSNum.posInf, JSNum.posInf => some Ordering.eq
  | JSNum.posInf, _ => some Ordering.gt
  | _, JSNum.posInf => some Ordering.lt
  | JSNum.num x, JSNum.num y => some (compare x y)

/-- `applyOpQ` on possibly-infinite (or `NaN`) number values. -/
def applyOpJS (op : String) (cVal sVal : JSNum) : Bool :=
  match jsCmpVal cVal sVal with
  | none => false
  | some o =>
    if op = ">=" then o ≠ Ordering.lt
    else if op = "<=" then o ≠ Ordering.gt
    else if op = ">" then o = Ordering.gt
    else if op = "<" then o = Ordering.lt
    else false

/-- The search value parsed as a date: a bare 4-digit value is January 1
of that year (`new Date(year, 0, 1)`), anything else goes to the generic
parser. -/
def searchValDateOf (v : String) : Option Int :=
  if v.data.length = 4 && v.data.all Char.isDigit then
    some (jsMakeTime (decNat v.data) 0 1 0 0 0)
  else genericDateParse v

/-- The inner `evaluateCell(cellValStr, colIndex)` of the INEQUALITY
branch: date-typed columns compare date-parsed values only; other columns
prefer numeric comparison (the `!isNaN(cellNum) && !isNaN(searchValNum)`
guard admits infinite values) and fall back to date comparison; an
incomparable pair is no match. -/
def evaluateCell (columns : List ColConfig) (op : String) (searchValNum : JSNum)
    (searchValDate : Option Int) (cellValStr : String) (colIndex : Nat) : Bool :=
  if typeAt columns colIndex = "date" then
    match parseDateString cellValStr (colConfigAt columns colIndex).format, searchValDate with
    | some cellDate, some sd => applyOpQ op (cellDate : ℚ) (sd : ℚ)
    | _, _ => false
  else
    let cellNum := jsParseFloat (stripNonNum cellValStr)
    if cellNum ≠ JSNum.nan ∧ searchValNum ≠ JSNum.nan then
      applyOpJS op cellNum searchValNum
    else
      match genericDateParse cellValStr, searchValDate with
      | some cellDate, some sd => applyOpQ op (cellDate : ℚ) (sd : ℚ)
      | _, _ => false

/-! ## AST evaluation -/

/-- `evaluateSearchAST(ast, row)` on a non-null node. -/
def evalNode (ctx : Ctx) : Ast → List String → Bool
  | Ast.orN l r, row => evalNode ctx l row || evalNode ctx r row
  | Ast.andN l r, row => evalNode ctx l row && evalNode ctx r row
  | Ast.ineq colQ op v, row =>
    let svN := jsParseFloat v
    let svD := searchValDateOf v
    match colQ.bind (findHeaderIdx ctx.headers) with
    | some i => evaluateCell ctx.columns op svN svD (row.getD i "") i
    | none =>
      scanCells (fun i cell =>
        ctx.visible.contains i && evaluateCell ctx.columns op svN svD cell i) 0 row
  | Ast.term colQ v, row =>
    match colQ.bind (findHeaderIdx ctx.headers) with
    | some i => termTest v (jsToLower (displayCell ctx i (row.getD i "")))
    | none =>
      scanCells (fun i cell =>
        ctx.visible.contains i && termTest v (jsToLower (displayCell ctx i cell))) 0 row

/-- `evaluateSearchAST` including the null-AST case: a null AST matches
every row. -/
def evalAst (ctx : Ctx) : Option Ast → List String → Bool
  | none, _ => true
  | some a, row => evalNode ctx a row

/-! ## Sort comparator (`renderTable`, `filteredData.sort(...)`) -/

/-- JS unary minus on a comparator result. -/
def jsNegJS : JSNum → JSNum
  | JSNum.nan => JSNum.nan
  | JSNum.negInf => JSNum.posInf
  | JSNum.posInf => JSNum.negInf
  | JSNum.num q => JSNum.num (-q)

/-- `this.sortAsc ? comp : -comp`. -/
def jsApplyAsc (asc : Bool) (r : JSNum) : JSNum :=
  if asc then r else jsNegJS r

/-- JS subtraction on number values (the number branch's
`comp = valA - valB`): same-signed infinities give `NaN`, an infinity
minus anything else keeps its sign, and a finite difference is exact.
(IEEE rounding cannot change what the claims observe: `finite - finite`
is never `NaN` however it rounds, and a rounded difference is still
negative, zero or positive.) -/
def jsSub : JSNum → JSNum → JSNum
  | JSNum.nan, _ => JSNum.nan
  | _, JSNum.nan => JSNum.nan
  | JSNum.negInf, JSNum.negInf => JSNum.nan
  | JSNum.posInf, JSNum.posInf => JSNum.nan
  | JSNum.negInf, _ => JSNum.negInf
  | JSNum.posInf, _ => JSNum.posInf
  | JSNum.num x, JSNum.num y => JSNum.num (x - y)
  | JSNum.num _, JSNum.negInf => JSNum.posInf
  | JSNum.num _, JSNum.posInf => JSNum.negInf

/-- `r < 0`. -/
def jsIsNegative : JSNum → Bool
  | JSNum.negInf => true
  | JSNum.num q => q < 0
  | _ => false

/-- `r > 0`. -/
def jsIsPositive : JSNum → Bool
  | JSNum.posInf => true
  | JSNum.num q => q > 0
  | _ => false

/-- `r = 0` (a `NaN` is neither negative, zero nor positive). -/
def jsIsZero : JSNum → Bool
  | JSNum.num q => q = 0
  | _ => false

/-- `String.prototype.localeCompare`, modelled as code-point order (the
locale-specific collation only permutes equal-length outcomes of
`{-1,0,1}` and no claim depends on its details). -/
def jsLocaleCompare (a b : String) : ℚ :=
  match compare a b with
  | Ordering.lt => -1
  | Ordering.eq => 0
  | Ordering.gt => 1

/-- The sort comparator of `renderTable` (source lines 674–709) on two
rows for sort column `sortColumn` and direction `sortAsc`.  Missing cells
coerce to `''`; the date branch returns `1` / `-1` directly (bypassing
the ascending flip) when exactly one side is unparseable. -/
def compareRows (columns : List ColConfig) (sortColumn : Nat) (sortAsc : Bool)
    (a b : List String) : JSNum :=
  let cfg := colConfigAt columns sortColumn
  let ty := typeAt columns sortColumn
  let valA := a.getD sortColumn ""
  let valB := b.getD sortColumn ""
  if ty = "number" then
    jsApplyAsc sortAsc
      (jsSub (nanToNegInf (jsParseFloat (stripNonNum valA)))
        (nanToNegInf (jsParseFloat (stripNonNum valB))))
  else if ty = "date" then
    match parseDateString valA cfg.format, parseDateString valB cfg.format with
    | none, none => jsApplyAsc sortAsc (JSNum.num 0)
    | none, some _ => JSNum.num 1
    | some _, none => JSNum.num (-1)
    | some x, some y => jsApplyAsc sortAsc (JSNum.num ((x - y : Int) : ℚ))
  else jsApplyAsc sortAsc (JSNum.num (jsLocaleCompare valA valB))

/-! ## Stable sort (ES2019+ `Array.prototype.sort` is stable; for a
consistent comparator its result is the unique stable order, realized
here as a stable insertion sort). -/

/-- Insert `x` (earlier in the original order than everything in the
list) before the first element it need not follow: `x` goes after `y`
only when the comparator is positive (ES2023 `CompareArrayElements`
treats a `NaN` comparator value as zero). -/
def stableInsert (cmp : α → α → JSNum) (x : α) : List α → List α
  | [] => [x]
  | y :: ys =>
    if jsIsPositive (cmp x y) then y :: stableInsert cmp x ys
    else x :: y :: ys

/-- Stable sort by a JS comparator. -/
def stableSortWith (cmp : α → α → JSNum) : List α → List α
  | [] => []
  | x :: xs => stableInsert cmp x (stableSortWith cmp xs)

/-! ## The filter/sort pass of one render (`renderTable`, lines 663–711) -/

/-- A data row: its cells, and the `_originalIndex` property which is
absent (`none`) until a render pass stamps it. -/
structure Row where
  cells : List String
  origIndex : Option Nat := none
deriving DecidableEq

/-- The mutation performed inside the filter callback:
`row._originalIndex = originalIndex` for every row, stamping its position
in `this.data`. -/
def stampAux : Nat → List Row → List Row
  | _, [] => []
  | n, r :: rs => { r with origIndex := some n } :: stampAux (n + 1) rs

/-- `this.data.filter(...)`: stamp every row, then keep the rows matching
the query (a missing/blank query or null AST keeps everything).  Returns
the post-pass state of `this.data` and the filtered list. -/
def stampFilter (ctx : Ctx) (searchQuery : String) (searchAST : Option Ast)
    (data : List Row) : List Row × List Row :=
  let stamped := stampAux 0 data
  (stamped,
   stamped.filter (fun r =>
     if searchQuery = "" ∨ jsTrim searchQuery = "" ∨ searchAST = none then true
     else evalAst ctx searchAST r.cells))

/-- One render pass over the row collection: filter (with its stamping
side effect) and, when a sort column is set, sort with the comparator.
The first component is the post-pass state of the input rows, the second
the filtered-and-sorted collection. -/
def renderPass (ctx : Ctx) (searchQuery : String) (searchAST : Option Ast)
    (sortColumn : Option Nat) (sortAsc : Bool) (data : List Row) :
    List Row × List Row :=
  let sf := stampFilter ctx searchQuery searchAST data
  let sorted :=
    match sortColumn with
    | none => sf.2
    | some i => stableSortWith (fun a b => compareRows ctx.columns i sortAsc a.cells b.cells) sf.2
  (sf.1, sorted)

/-- The Lexer invariant on a token: leaf tokens carry a non-empty value
or a non-null column; structural tokens satisfy it trivially. -/
def tokOk : Token → Prop
  | Token.term c v => v ≠ "" ∨ c ≠ none
  | Token.ineq c _ v => v ≠ "" ∨ c ≠ none
  | _ => True

/-- The AST leaf a leaf token parses to (`none` for structural tokens). -/
def leafAst : Token → Option Ast
  | Token.term c v => some (Ast.term c v)
  | Token.ineq c o v => some (Ast.ineq c o v)
  | _ => none

/-! ## Supporting lemmas -/

theorem jsTrim_eq_empty_of_all_space {s : String}
    (h : ∀ c ∈ s.data, isJsSpace c = true) : jsTrim s = "" := by
  have h1 : s.data.dropWhile isJsSpace = [] := List.dropWhile_eq_nil_iff.mpr h
  have h2 : jsTrimList s.data = [] := by
    simp [jsTrimList, h1]
  simp [jsTrim, h2]

theorem all_space_of_jsTrim_eq_empty {s : String}
    (h : jsTrim s = "") : ∀ c ∈ s.data, isJsSpace c = true := by
  have hdata : jsTrimList s.data = [] := by
    have := congrArg String.data h
    simpa [jsTrim] using this
  have h2 : (s.data.dropWhile isJsSpace).reverse.dropWhile isJsSpace = [] := by
    simpa [jsTrimList] using congrArg List.reverse hdata
  have h3 : ∀ c ∈ (s.data.dropWhile isJsSpace).reverse, isJsSpace c = true :=
    List.dropWhile_eq_nil_iff.mp h2
  have h4 : ∀ c ∈ s.data.dropWhile isJsSpace, isJsSpace c = true := by
    intro c hc
    exact h3 c (List.mem_reverse.mpr hc)
  intro c hc
  rw [← List.takeWhile_append_dropWhile (p := isJsSpace) (l := s.data)] at hc
  rcases List.mem_append.mp hc with h5 | h5
  · exact List.mem_takeWhile_imp h5
  · exact h4 c h5

theorem lexAux_eq_nil_of_all_space :
    ∀ (f : Nat) (cs : List Char), (∀ c ∈ cs, isJsSpace c = true) → lexAux f cs = [] := by
  intro f
  induction f with
  | zero => intro cs _; rfl
  | succ f ih =>
    intro cs h
    cases cs with
    | nil => rfl
    | cons c cs =>
      have hc : isJsSpace c = true := h c (by simp)
      have hstep : lexStep c cs = (none, cs) := by simp [lexStep, hc]
      simp only [lexAux, hstep]
      exact ih cs (fun x hx => h x (by simp [hx]))

theorem lexQuery_eq_nil_of_jsTrim_empty {q : String} (h : jsTrim q = "") :
    lexQuery q = [] :=
  lexAux_eq_nil_of_all_space _ _ (all_space_of_jsTrim_eq_empty h)

/-! ## Claim theorems -/

/-- C8: a query that is empty or consists only of whitespace parses to a
null AST, and a null AST matches every row. -/
theorem empty_query_matches_everything :
    ∀ q : String, (∀ c ∈ q.data, isJsSpace c = true) →
      parseSearchQuery q = none ∧
      ∀ (ctx : Ctx) (row : List String), evalAst ctx none row = true := by
  intro q h
  refine ⟨?_, fun ctx row => rfl⟩
  have ht : jsTrim q = "" := jsTrim_eq_empty_of_all_space h
  simp [parseSearchQuery, ht]

/-- Witness for C8 at the two-space query. -/
theorem empty_query_matches_everything_witness :
    parseSearchQuery "  " = none :=
  (empty_query_matches_everything "  " (by decide)).1

set_option maxHeartbeats 2000000 in
/-- C2: `parseDateString("2023/01/05", "YYYY/MM/DD")` is the timestamp of
January 5, 2023 at (model-)local midnight, `new Date(2023,0,5,0,0,0)`.
(The compiled format pattern is invalid — see the C1 theorem — so the
result is produced by the generic fallback parser.) -/
theorem parseDateString_slash_scenario :
    parseDateString "2023/01/05" (some "YYYY/MM/DD") = some (jsMakeTime 2023 0 5 0 0 0) := by
  decide

/-- C1: the format/parse round trip fails.  The token substitutions
corrupt the named groups of the compiled pattern (for `DD.MM.YYYY` the
chain yields `(?<(?<D>\d\x7b1,2\x7d)D>…`), the pattern never compiles,
and parsing `formatDate`'s own output `05.01.2023` falls back to the
generic parser, which does not read the format — the original timestamp
is not recovered. -/
theorem format_parse_roundtrip_fails :
    renderDateFormat "DD.MM.YYYY" (jsMakeTime 2023 0 5 0 0 0) = "05.01.2023" ∧
    parseDateString "05.01.2023" (some "DD.MM.YYYY") = none ∧
    parseDateString (renderDateFormat "DD.MM.YYYY" (jsMakeTime 2023 0 5 0 0 0))
        (some "DD.MM.YYYY") ≠ some (jsMakeTime 2023 0 5 0 0 0) := by
  refine ⟨by decide, by decide, ?_⟩
  decide

theorem stampAux_map_cells : ∀ (n : Nat) (rs : List Row),
    (stampAux n rs).map Row.cells = rs.map Row.cells := by
  intro n rs
  induction rs generalizing n with
  | nil => rfl
  | cons r rs ih => simp [stampAux, ih]

theorem stampAux_map_origIndex : ∀ (n : Nat) (rs : List Row),
    (stampAux n rs).map Row.origIndex = (List.range' n rs.length).map some := by
  intro n rs
  induction rs generalizing n with
  | nil => rfl
  | cons r rs ih => simp [stampAux, ih, List.range']

/-- C6 counterexample: one render pass does not leave the input rows
unchanged — the filter callback stamps `_originalIndex` on every row. -/
theorem renderPass_mutates_input_rows :
    (renderPass {} "" none none true [{ cells := ["x"] }]).1 ≠
      [({ cells := ["x"] } : Row)] := by
  decide

/-- C6 amended: filtering/sorting for one render pass is a function of
(rows, query text, sort state, column configuration, visible-column set),
and it preserves every row's cells — but it writes the `_originalIndex`
property of every input row, setting it to the row's position. -/
theorem renderPass_function_of_inputs_stamps_indices :
    ∀ (ctx : Ctx) (q : String) (ast : Option Ast) (sc : Option Nat) (asc : Bool)
      (data : List Row),
      ((renderPass ctx q ast sc asc data).1).map Row.cells = data.map Row.cells ∧
      ((renderPass ctx q ast sc asc data).1).map Row.origIndex =
        (List.range data.length).map some := by
  intro ctx q ast sc asc data
  have h1 : (renderPass ctx q ast sc asc data).1 = stampAux 0 data := rfl
  rw [h1, stampAux_map_cells, stampAux_map_origIndex, List.range_eq_range']
  exact ⟨rfl, rfl⟩

theorem compareRows_eq_nan_iff (cols : List ColConfig) (i : Nat) (asc : Bool)
    (a b : List String) :
    compareRows cols i asc a b = JSNum.nan ↔
      (typeAt cols i = "number" ∧
       ((nanToNegInf (jsParseFloat (stripNonNum (a.getD i ""))) = JSNum.negInf ∧
         nanToNegInf (jsParseFloat (stripNonNum (b.getD i ""))) = JSNum.negInf) ∨
        (nanToNegInf (jsParseFloat (stripNonNum (a.getD i ""))) = JSNum.posInf ∧
         nanToNegInf (jsParseFloat (stripNonNum (b.getD i ""))) = JSNum.posInf))) := by
  by_cases hn : typeAt cols i = "number"
  · simp only [compareRows, hn, if_pos, reduceIte]
    rcases hA : jsParseFloat (stripNonNum (a.getD i "")) with _ | _ | _ | x <;>
      rcases hB : jsParseFloat (stripNonNum (b.getD i "")) with _ | _ | _ | y <;>
        cases asc <;> simp [nanToNegInf, jsSub, jsApplyAsc, jsNegJS]
  · by_cases hd : typeAt cols i = "date"
    · simp only [compareRows, hn, hd, reduceIte]
      rcases hA : parseDateString (a.getD i "") (colConfigAt cols i).format with _ | x <;>
        rcases hB : parseDateString (b.getD i "") (colConfigAt cols i).format with _ | y <;>
          cases asc <;> simp [jsApplyAsc, jsNegJS, hn]
    · simp only [compareRows, hn, hd, reduceIte]
      cases asc <;> simp [jsApplyAsc, jsNegJS, hn]

theorem jsnum_sign_trichotomy (r : JSNum) (h : r ≠ JSNum.nan) :
    jsIsNegative r = true ∨ jsIsZero r = true ∨ jsIsPositive r = true := by
  cases r with
  | nan => exact absurd rfl h
  | negInf => exact Or.inl rfl
  | posInf => exact Or.inr (Or.inr rfl)
  | num q =>
    rcases lt_trichotomy q 0 with hq | hq | hq
    · exact Or.inl (by simp [jsIsNegative, hq])
    · exact Or.inr (Or.inl (by simp [jsIsZero, hq]))
    · exact Or.inr (Or.inr (by simp [jsIsPositive, hq]))

/-- C4 counterexample: on a column typed `number` with two cells whose
stripped text does not parse, the comparator returns `NaN`, which is
neither negative, zero nor positive
(`-Infinity - -Infinity` in the source). -/
theorem comparator_returns_nan_on_two_unparseable_numbers :
    ¬ (jsIsNegative (compareRows [{ type := some "number" }] 0 true ["x"] ["y"]) = true ∨
       jsIsZero (compareRows [{ type := some "number" }] 0 true ["x"] ["y"]) = true ∨
       jsIsPositive (compareRows [{ type := some "number" }] 0 true ["x"] ["y"]) = true) := by
  decide

/-- C4 amended: for every pair of rows, sort state and column
configuration the comparator returns a negative number, zero or a
positive number — except when the sort column is typed `number` and the
two coerced operands of the number branch are infinities of the same
sign (both cells unparseable or parsing to `-Infinity`, or both parsing
to `+Infinity`), in which case their difference is `NaN`.  Both cells
failing to parse — the counterexample's case — is the `-Infinity`
instance of this. -/
theorem comparator_sign_unless_same_signed_infinities :
    ∀ (cols : List ColConfig) (i : Nat) (asc : Bool) (a b : List String),
      (¬ (typeAt cols i = "number" ∧
          ((nanToNegInf (jsParseFloat (stripNonNum (a.getD i ""))) = JSNum.negInf ∧
            nanToNegInf (jsParseFloat (stripNonNum (b.getD i ""))) = JSNum.negInf) ∨
           (nanToNegInf (jsParseFloat (stripNonNum (a.getD i ""))) = JSNum.posInf ∧
            nanToNegInf (jsParseFloat (stripNonNum (b.getD i ""))) = JSNum.posInf))) →
        jsIsNegative (compareRows cols i asc a b) = true ∨
        jsIsZero (compareRows cols i asc a b) = true ∨
        jsIsPositive (compareRows cols i asc a b) = true) ∧
      (typeAt cols i = "number" →
        ((nanToNegInf (jsParseFloat (stripNonNum (a.getD i ""))) = JSNum.negInf ∧
          nanToNegInf (jsParseFloat (stripNonNum (b.getD i ""))) = JSNum.negInf) ∨
         (nanToNegInf (jsParseFloat (stripNonNum (a.getD i ""))) = JSNum.posInf ∧
          nanToNegInf (jsParseFloat (stripNonNum (b.getD i ""))) = JSNum.posInf)) →
        compareRows cols i asc a b = JSNum.nan) := by
  intro cols i asc a b
  constructor
  · intro h
    refine jsnum_sign_trichotomy _ (fun hc => h ?_)
    exact (compareRows_eq_nan_iff cols i asc a b).mp hc
  · intro h1 h2
    exact (compareRows_eq_nan_iff cols i asc a b).mpr ⟨h1, h2⟩

/-- Witness for the C4 amended theorem on a string-typed column. -/
theorem comparator_sign_unless_same_signed_infinities_witness :
    jsIsNegative (compareRows [] 0 true ["a"] ["b"]) = true ∨
    jsIsZero (compareRows [] 0 true ["a"] ["b"]) = true ∨
    jsIsPositive (compareRows [] 0 true ["a"] ["b"]) = true :=
  (comparator_sign_unless_same_signed_infinities [] 0 true ["a"] ["b"]).1 (by decide)

/-- C3: sorting a date-typed column: two unparseable cells compare equal;
exactly one unparseable cell sorts after the other regardless of the
ascending flag; and the spec's three-row scenario sorts as stated in both
directions. -/
theorem date_sort_unparseable_to_end :
    (∀ (cols : List ColConfig) (i : Nat) (asc : Bool) (a b : List String),
        typeAt cols i = "date" →
        parseDateString (a.getD i "") (colConfigAt cols i).format = none →
        parseDateString (b.getD i "") (colConfigAt cols i).format = none →
        compareRows cols i asc a b = JSNum.num 0) ∧
    (∀ (cols : List ColConfig) (i : Nat) (asc : Bool) (a b : List String),
        typeAt cols i = "date" →
        parseDateString (a.getD i "") (colConfigAt cols i).format = none →
        parseDateString (b.getD i "") (colConfigAt cols i).format ≠ none →
        compareRows cols i asc a b = JSNum.num 1) ∧
    (∀ (cols : List ColConfig) (i : Nat) (asc : Bool) (a b : List String),
        typeAt cols i = "date" →
        parseDateString (a.getD i "") (colConfigAt cols i).format ≠ none →
        parseDateString (b.getD i "") (colConfigAt cols i).format = none →
        compareRows cols i asc a b = JSNum.num (-1)) ∧
    stableSortWith (fun a b => compareRows [{ type := some "date" }] 0 true a b)
        [["2020-01-01"], ["not-a-date"], ["2019-06-01"]] =
      [["2019-06-01"], ["2020-01-01"], ["not-a-date"]] ∧
    stableSortWith (fun a b => compareRows [{ type := some "date" }] 0 false a b)
        [["2020-01-01"], ["not-a-date"], ["2019-06-01"]] =
      [["2020-01-01"], ["2019-06-01"], ["not-a-date"]] := by
  have hnd : ∀ cols i, typeAt cols i = "date" → ¬ typeAt cols i = "number" := by
    intro cols i h hc
    rw [h] at hc
    exact absurd hc (by decide)
  refine ⟨?_, ?_, ?_, by decide, by decide⟩
  · intro cols i asc a b hty hA hB
    simp only [compareRows, hnd cols i hty, hty, hA, hB, reduceIte]
    cases asc <;> simp [jsApplyAsc, jsNegJS]
  · intro cols i asc a b hty hA hB
    obtain ⟨y, hy⟩ := Option.ne_none_iff_exists'.mp hB
    simp only [compareRows, hnd cols i hty, hty, hA, hy, reduceIte]
    rw [if_neg (by decide)]
  · intro cols i asc a b hty hA hB
    obtain ⟨x, hx⟩ := Option.ne_none_iff_exists'.mp hA
    simp only [compareRows, hnd cols i hty, hty, hx, hB, reduceIte]
    rw [if_neg (by decide)]

/-- Witness for C3: an unparseable first cell sorts after, even
descending. -/
theorem date_sort_unparseable_to_end_witness :
    compareRows [{ type := some "date" }] 0 false ["nope"] ["2020-01-01"] = JSNum.num 1 :=
  date_sort_unparseable_to_end.2.1 [{ type := some "date" }] 0 false
    ["nope"] ["2020-01-01"] (by decide) (by decide) (by decide)

theorem isJsSpace_eq_false_of_isDigit {c : Char} (h : c.isDigit = true) :
    isJsSpace c = false := by
  simp only [isJsSpace, Bool.or_eq_false_iff, decide_eq_false_iff_not]
  refine ⟨⟨⟨⟨⟨?_, ?_⟩, ?_⟩, ?_⟩, ?_⟩, ?_⟩ <;> rintro rfl <;> exact absurd h (by decide)

theorem ne_dash_of_isDigit {c : Char} (h : c.isDigit = true) : c ≠ '-' := by
  rintro rfl; exact absurd h (by decide)

theorem ne_plus_of_isDigit {c : Char} (h : c.isDigit = true) : c ≠ '+' := by
  rintro rfl; exact absurd h (by decide)

theorem jsFloatVal_ne_nan (neg : Bool) (m f : Nat) (e : Int) :
    jsFloatVal neg m f e ≠ JSNum.nan := by
  unfold jsFloatVal
  split
  · split <;> simp
  · simp

/-- A string starting with a digit never `parseFloat`s to `NaN` (it may
still be an infinity). -/
theorem jsParseFloat_cons_digit_ne_nan {c : Char} (hc : c.isDigit = true) (l : List Char) :
    jsParseFloat ⟨c :: l⟩ ≠ JSNum.nan := by
  have hsp : isJsSpace c = false := isJsSpace_eq_false_of_isDigit hc
  have hdr : (c :: l).dropWhile isJsSpace = c :: l := by
    simp [List.dropWhile, hsp]
  have h1 : ((c :: l).head? = some '-') = False := by
    simp [ne_dash_of_isDigit hc]
  have h2 : ((c :: l).head? = some '+') = False := by
    simp [ne_plus_of_isDigit hc]
  have htw : (c :: l).takeWhile Char.isDigit = c :: l.takeWhile Char.isDigit := by
    simp [List.takeWhile, hc]
  simp only [jsParseFloat, hdr, h1, h2, or_self, if_false, htw]
  rw [if_neg (by simp)]
  apply jsFloatVal_ne_nan

/-- A cell that the generic date parser accepts always parses as a
non-`NaN` number after the strip (its first character is a digit), so a
number-unparseable cell is also date-unparseable. -/
theorem genericDateParse_none_of_jsParseFloat_nan {s : String}
    (h : jsParseFloat (stripNonNum s) = JSNum.nan) : genericDateParse s = none := by
  cases hg : genericDateParse s with
  | none => rfl
  | some t =>
    exfalso
    obtain ⟨cs⟩ := s
    rcases cs with _ | ⟨y1, _ | ⟨y2, _ | ⟨y3, _ | ⟨y4, _ | ⟨c5, _ | ⟨m1, _ | ⟨m2, _ | ⟨c8, _ | ⟨d1, _ | ⟨d2, _ | ⟨x, r⟩⟩⟩⟩⟩⟩⟩⟩⟩⟩⟩ <;>
      simp only [genericDateParse] at hg <;>
      try exact Option.noConfusion hg
    split at hg
    case isFalse => exact absurd hg (by simp)
    case isTrue hguard =>
      have hy1 : y1.isDigit = true := by
        simp only [Bool.and_eq_true, Bool.or_eq_true] at hguard
        tauto
      have hstrip : stripNonNum ⟨[y1, y2, y3, y4, c5, m1, m2, c8, d1, d2]⟩ =
          ⟨y1 :: ([y2, y3, y4, c5, m1, m2, c8, d1, d2].filter
            (fun c => c.isDigit || c = '.' || c = '-'))⟩ := by
        simp [stripNonNum, List.filter, hy1]
      rw [hstrip] at h
      exact jsParseFloat_cons_digit_ne_nan hy1
        ([y2, y3, y4, c5, m1, m2, c8, d1, d2].filter (fun c => c.isDigit || c = '.' || c = '-')) h

/-- C5: on a column typed `number`, a cell whose stripped text does not
parse is treated as negative infinity by the comparator — it sorts before
every cell holding a real (finite) number when ascending — while the
inequality evaluation of that cell returns `false` for every operator and
query value. -/
theorem number_unparseable_neginf_sort_but_no_ineq_match :
    (∀ (cols : List ColConfig) (i : Nat) (a b : List String),
        typeAt cols i = "number" →
        jsParseFloat (stripNonNum (a.getD i "")) = JSNum.nan →
        jsIsFinite (jsParseFloat (stripNonNum (b.getD i ""))) = true →
        compareRows cols i true a b = JSNum.negInf) ∧
    (∀ (cols : List ColConfig) (i : Nat) (op : String) (svN : JSNum)
        (svD : Option Int) (cell : String),
        typeAt cols i = "number" →
        jsParseFloat (stripNonNum cell) = JSNum.nan →
        evaluateCell cols op svN svD cell i = false) := by
  constructor
  · intro cols i a b hty hA hB
    rcases hB' : jsParseFloat (stripNonNum (b.getD i "")) with _ | _ | _ | q <;>
      rw [hB'] at hB
    · exact absurd hB (by simp [jsIsFinite])
    · exact absurd hB (by simp [jsIsFinite])
    · exact absurd hB (by simp [jsIsFinite])
    · simp only [compareRows, hty, reduceIte, hA, hB']
      simp [nanToNegInf, jsSub, jsApplyAsc]
  · intro cols i op svN svD cell hty hpf
    have hgd : genericDateParse cell = none := genericDateParse_none_of_jsParseFloat_nan hpf
    simp only [evaluateCell, hty, hpf, hgd, reduceIte]
    rw [if_neg (by simp)]
    cases svD <;> rfl

set_option maxRecDepth 8000 in
/-- Witness for C5 at a concrete unparseable cell against a finite one. -/
theorem number_unparseable_neginf_sort_but_no_ineq_match_witness :
    compareRows [{ type := some "number" }] 0 true ["abc"] ["5"] = JSNum.negInf ∧
    evaluateCell [{ type := some "number" }] ">" (jsParseFloat "30")
      (searchValDateOf "30") "abc" 0 = false :=
  ⟨number_unparseable_neginf_sort_but_no_ineq_match.1 [{ type := some "number" }] 0
      ["abc"] ["5"] (by decide) (by decide) (by decide),
   number_unparseable_neginf_sort_but_no_ineq_match.2 [{ type := some "number" }] 0
      ">" (jsParseFloat "30") (searchValDateOf "30") "abc" (by decide) (by decide)⟩

theorem string_of_map_ne_empty {v : List Char} (h : v ≠ []) :
    (⟨v.map jsCharLower⟩ : String) ≠ "" := by
  intro hc
  have hd := congrArg String.data hc
  simp only [List.map_eq_nil_iff] at hd
  exact h hd

theorem mkTok_ok {col op : Option String} {v : List Char}
    (h : v ≠ [] ∨ col ≠ none) : tokOk (mkTok col op v) := by
  cases op with
  | none =>
    show (⟨v.map jsCharLower⟩ : String) ≠ "" ∨ col ≠ none
    rcases h with h | h
    · exact Or.inl (string_of_map_ne_empty h)
    · exact Or.inr h
  | some o =>
    show (⟨v.map jsCharLower⟩ : String) ≠ "" ∨ col ≠ none
    rcases h with h | h
    · exact Or.inl (string_of_map_ne_empty h)
    · exact Or.inr h

theorem lexFragment_ok {cs : List Char} {t : Token}
    (h : (lexFragment cs).1 = some t) : tokOk t := by
  simp only [lexFragment] at h
  split at h
  case isTrue hguard =>
    cases h
    exact mkTok_ok hguard
  case isFalse => exact Option.noConfusion h

theorem lexKeyword_ok {cs : List Char} {tr : Token × List Char}
    (h : lexKeyword cs = some tr) : tokOk tr.1 := by
  rcases cs with _ | ⟨a, _ | ⟨b, _ | ⟨c, rest⟩⟩⟩ <;> simp only [lexKeyword] at h
  · exact Option.noConfusion h
  · exact Option.noConfusion h
  · split at h
    · cases h; trivial
    · exact Option.noConfusion h
  · split at h
    · cases h; trivial
    · split at h
      · cases h; trivial
      · exact Option.noConfusion h

theorem lexStep_ok {c : Char} {cs : List Char} {t : Token}
    (h : (lexStep c cs).1 = some t) : tokOk t := by
  simp only [lexStep] at h
  split at h
  · exact Option.noConfusion h
  · split at h
    · cases h; trivial
    · split at h
      · cases h; trivial
      · rcases hk : lexKeyword (c :: cs) with _ | tr
        · rw [hk] at h
          exact lexFragment_ok h
        · rw [hk] at h
          cases h
          exact lexKeyword_ok hk

theorem lexAux_ok : ∀ (f : Nat) (cs : List Char) (t : Token), t ∈ lexAux f cs → tokOk t := by
  intro f
  induction f with
  | zero => intro cs t ht; exact absurd ht (by simp [lexAux])
  | succ f ih =>
    intro cs t ht
    cases cs with
    | nil => exact absurd ht (by simp [lexAux])
    | cons c cs =>
      simp only [lexAux] at ht
      rcases hst : (lexStep c cs).1 with _ | t'
      · rw [hst] at ht
        exact ih _ _ ht
      · rw [hst] at ht
        rcases List.mem_cons.mp ht with h | h
        · exact h ▸ lexStep_ok hst
        · exact ih _ _ h

/-- C9: every `TERM` or `INEQUALITY` token emitted by the lexer has a
non-empty value or a non-null column; empty column-less fragments are
never emitted. -/
theorem lexer_emits_no_empty_leaf_tokens :
    ∀ (q : String) (c : Option String) (v : String),
      (Token.term c v ∈ lexQuery q → v ≠ "" ∨ c ≠ none) ∧
      (∀ o : String, Token.ineq c o v ∈ lexQuery q → v ≠ "" ∨ c ≠ none) := by
  intro q c v
  exact ⟨fun h => lexAux_ok _ _ _ h, fun o h => lexAux_ok _ _ _ h⟩

/-- Witness for C9 at the one-character query `a`. -/
theorem lexer_emits_no_empty_leaf_tokens_witness :
    ("a" : String) ≠ "" ∨ (none : Option String) ≠ none :=
  (lexer_emits_no_empty_leaf_tokens "a" none "a").1 (by decide)

theorem termTest_caret (s : String) : termTest "^" s = true := rfl

theorem termTest_dollar (s : String) : termTest "$" s = true := rfl

theorem scanCells_pred_iff (p : Nat → Bool) :
    ∀ (row : List String) (n : Nat),
      scanCells (fun i _ => p i) n row = true ↔
        ∃ j, j < row.length ∧ p (n + j) = true := by
  intro row
  induction row with
  | nil => intro n; simp [scanCells]
  | cons c cs ih =>
    intro n
    simp only [scanCells, Bool.or_eq_true, ih (n + 1), List.length_cons]
    constructor
    · rintro (h | ⟨j, hj, hp⟩)
      · exact ⟨0, by omega, by simpa using h⟩
      · exact ⟨j + 1, by omega, by rwa [show n + (j + 1) = n + 1 + j by omega]⟩
    · rintro ⟨j, hj, hp⟩
      cases j with
      | zero => exact Or.inl (by simpa using hp)
      | succ j =>
        exact Or.inr ⟨j, by omega, by rwa [show n + 1 + j = n + (j + 1) by omega]⟩

/-- C10: a column-less `TERM` whose value is exactly `^` (or exactly `$`)
compiles, after anchor extraction, to a pattern with an empty literal,
which every string satisfies: it matches a row exactly when some cell
position of the row is in the visible-column set, and matches no row when
the visible set is empty. -/
theorem caret_dollar_terms_match_any_visible :
    ∀ (ctx : Ctx) (row : List String),
      (evalAst ctx (some (Ast.term none "^")) row = true ↔
        ∃ i, i < row.length ∧ ctx.visible.contains i = true) ∧
      (evalAst ctx (some (Ast.term none "$")) row = true ↔
        ∃ i, i < row.length ∧ ctx.visible.contains i = true) ∧
      (ctx.visible = [] →
        evalAst ctx (some (Ast.term none "^")) row = false ∧
        evalAst ctx (some (Ast.term none "$")) row = false) := by
  intro ctx row
  have hfun1 : (fun i cell =>
      ctx.visible.contains i && termTest "^" (jsToLower (displayCell ctx i cell))) =
      (fun i (_ : String) => ctx.visible.contains i) := by
    funext i cell
    rw [termTest_caret, Bool.and_true]
  have hfun2 : (fun i cell =>
      ctx.visible.contains i && termTest "$" (jsToLower (displayCell ctx i cell))) =
      (fun i (_ : String) => ctx.visible.contains i) := by
    funext i cell
    rw [termTest_dollar, Bool.and_true]
  have he1 : evalAst ctx (some (Ast.term none "^")) row =
      scanCells (fun i _ => ctx.visible.contains i) 0 row := by
    simp only [evalAst, evalNode, Option.bind, hfun1]
  have he2 : evalAst ctx (some (Ast.term none "$")) row =
      scanCells (fun i _ => ctx.visible.contains i) 0 row := by
    simp only [evalAst, evalNode, Option.bind, hfun2]
  have hiff : scanCells (fun i _ => ctx.visible.contains i) 0 row = true ↔
      ∃ i, i < row.length ∧ ctx.visible.contains i = true := by
    simpa using scanCells_pred_iff (fun i => ctx.visible.contains i) row 0
  refine ⟨?_, ?_, fun hv => ?_⟩
  · rw [he1]; exact hiff
  · rw [he2]; exact hiff
  · have hfalse : scanCells (fun i _ => ctx.visible.contains i) 0 row = false := by
      cases hb : scanCells (fun i _ => ctx.visible.contains i) 0 row with
      | false => rfl
      | true =>
        obtain ⟨i, _, hc⟩ := hiff.mp hb
        rw [hv] at hc
        exact absurd hc (by simp)
    exact ⟨he1.trans hfalse, he2.trans hfalse⟩

/-- C7: juxtaposition (implicit AND) binds tighter than OR: a query whose
token sequence is `a OR b c` (for any leaf tokens) parses to
`Or(a, And(b, c))`, and that AST evaluates on every row to
`a ∨ (b ∧ c)`. -/
theorem or_binds_looser_than_juxtaposition :
    ∀ (q : String) (a b c : Token) (A B C : Ast),
      lexQuery q = [a, Token.orT, b, c] →
      leafAst a = some A → leafAst b = some B → leafAst c = some C →
      parseSearchQuery q = some (Ast.orN A (Ast.andN B C)) ∧
      ∀ (ctx : Ctx) (row : List String),
        evalAst ctx (some (Ast.orN A (Ast.andN B C))) row =
          (evalAst ctx (some A) row ||
            (evalAst ctx (some B) row && evalAst ctx (some C) row)) := by
  intro q a b c A B C hlex ha hb hc
  have htrim : ¬ (q = "" ∨ jsTrim q = "") := by
    rintro (rfl | h)
    · rw [show lexQuery "" = [] from rfl] at hlex
      exact List.noConfusion hlex
    · rw [lexQuery_eq_nil_of_jsTrim_empty h] at hlex
      exact List.noConfusion hlex
  have hps : parseSearchQuery q = parseTokens [a, Token.orT, b, c] := by
    rw [parseSearchQuery, if_neg htrim, hlex]
  refine ⟨?_, fun ctx row => rfl⟩
  rw [hps]
  cases a <;> cases b <;> cases c <;>
    simp only [leafAst, reduceCtorEq, Option.some.injEq] at ha hb hc <;>
      subst ha <;> subst hb <;> subst hc <;> rfl

/-- Witness for C7 at the query `a OR b c`. -/
theorem or_binds_looser_than_juxtaposition_witness :
    parseSearchQuery "a OR b c" =
      some (Ast.orN (Ast.term none "a")
        (Ast.andN (Ast.term none "b") (Ast.term none "c"))) :=
  (or_binds_looser_than_juxtaposition "a OR b c"
    (Token.term none "a") (Token.term none "b") (Token.term none "c")
    (Ast.term none "a") (Ast.term none "b") (Ast.term none "c")
    (by decide) rfl rfl rfl).1

/-- Witness for C10: with an empty visible set, the `^` and `$` terms
match nothing. -/
theorem caret_dollar_terms_match_any_visible_witness :
    evalAst { headers := ["h"], columns := [], visible := [] }
        (some (Ast.term none "^")) ["cell"] = false ∧
    evalAst { headers := ["h"], columns := [], visible := [] }
        (some (Ast.term none "$")) ["cell"] = false :=
  (caret_dollar_terms_match_any_visible
    { headers := ["h"], columns := [], visible := [] } ["cell"]).2.2 rfl

end Csv2Table
